import Mathlib

/-!
Shallow embedding of the audinote media-processing and duration-estimation
pipeline (services/timeEstimator.js, utils/timeFormatter.js,
services/audioDurationDetector.js, services/videoDurationDetector.js,
services/processingTimeEstimator.js, services/audioProcessor.js,
services/transcriber.js, config.js).

JavaScript numbers are embedded as rationals (ℚ); every value reachable in
this code base is an exact decimal, so the embedding is exact, and NaN is
modelled as Option.none at the parse boundaries. String operations are
modelled over List Char, with a String wrapper at the API boundary. Each
string-scanning primitive is split into a character-level lexer (producing
digit lists and flags, so it is kernel-computable) and a thin numeric
valuation, mirroring how the JS builtins parseFloat, parseInt and the
duration regex first isolate lexical groups and then assign them a number.
-/

/-! ## Definitions: the shallow embedding -/

/-- JS whitespace recognized by String.prototype.trim and parseFloat
(ASCII subset; exotic Unicode spaces are not modelled). -/
def isJsSpace (c : Char) : Bool :=
  c == ' ' || c == '\t' || c == '\n' || c == '\r' || c == '\x0b' || c == '\x0c'

/-- Embedding of JS String.prototype.trim over character lists. -/
def trimList (cs : List Char) : List Char :=
  ((cs.dropWhile isJsSpace).reverse.dropWhile isJsSpace).reverse

/-- Value of a decimal digit string read left to right, as computed by the
JS builtins parseInt and parseFloat on their digit groups. -/
def digitsToNat (ds : List Char) : ℕ :=
  ds.foldl (fun n c => 10 * n + (c.toNat - Char.toNat '0')) 0

/-- Embedding of String.prototype.replace with the regex collapsing every
run of consecutive colons to a single colon (the normalization step of
parseDurationToSeconds). A colon directly followed by another colon is
dropped, so each run keeps exactly one colon. -/
def collapseColons : List Char → List Char
  | [] => []
  | [c] => [c]
  | c1 :: c2 :: rest =>
    if c1 = ':' ∧ c2 = ':' then collapseColons (c2 :: rest)
    else c1 :: collapseColons (c2 :: rest)

/-- Embedding of JS String.prototype.split on the separator ":".
Splitting the empty string yields one empty field, as in JS. -/
def splitOnColon : List Char → List (List Char)
  | [] => [[]]
  | c :: rest =>
    if c = ':' then [] :: splitOnColon rest
    else
      match splitOnColon rest with
      | [] => [[c]]
      | p :: ps => (c :: p) :: ps

/-- Character-level mantissa of JS parseFloat: leading digits, optionally
followed by a dot and more digits; a bare dot with digits on neither side
is invalid. Returns the integer digit group, the fraction digit group and
the unconsumed remainder. -/
def mantissaDigits (cs : List Char) : Option ((List Char × List Char) × List Char) :=
  let ip := cs.takeWhile Char.isDigit
  let r1 := cs.dropWhile Char.isDigit
  match r1 with
  | '.' :: r2 =>
    let fp := r2.takeWhile Char.isDigit
    let r3 := r2.dropWhile Char.isDigit
    if ip = [] ∧ fp = [] then none else some ((ip, fp), r3)
  | _ => if ip = [] then none else some ((ip, []), r1)

/-- Exponent tail of JS parseFloat after the letter e or E: an optional
sign and digits; with no digits the exponent contributes zero. -/
def parseExpTail (r : List Char) : ℤ :=
  match r with
  | '+' :: r2 =>
    if r2.takeWhile Char.isDigit = [] then 0
    else (digitsToNat (r2.takeWhile Char.isDigit) : ℤ)
  | '-' :: r2 =>
    if r2.takeWhile Char.isDigit = [] then 0
    else -(digitsToNat (r2.takeWhile Char.isDigit) : ℤ)
  | _ =>
    if r.takeWhile Char.isDigit = [] then 0
    else (digitsToNat (r.takeWhile Char.isDigit) : ℤ)

/-- Exponent of JS parseFloat: e or E then an optionally signed digit
string; an absent or invalid exponent contributes zero. -/
def parseExponent (cs : List Char) : ℤ :=
  match cs with
  | 'e' :: r => parseExpTail r
  | 'E' :: r => parseExpTail r
  | _ => 0

/-- Character-level result of JS parseFloat: sign, integer digits,
fraction digits and exponent. -/
structure FloatRep where
  neg : Bool
  intDigits : List Char
  fracDigits : List Char
  exp : ℤ
deriving DecidableEq, Repr

/-- Character-level phase of JS parseFloat: skip leading whitespace, read
an optional sign, the decimal mantissa and the optional exponent, ignoring
trailing garbage. none models NaN (the literal Infinity, which parseFloat
also accepts, is not modelled; nothing in this code base depends on it). -/
def floatParse (cs : List Char) : Option FloatRep :=
  let cs1 := cs.dropWhile isJsSpace
  let signed : Bool × List Char :=
    match cs1 with
    | c :: r => if c = '-' then (true, r) else if c = '+' then (false, r) else (false, cs1)
    | [] => (false, cs1)
  (mantissaDigits signed.2).map
    (fun m => ⟨signed.1, m.1.1, m.1.2, parseExponent m.2⟩)

/-- Numeric valuation of a parseFloat lexeme. -/
def floatValue (f : FloatRep) : ℚ :=
  (if f.neg then -1 else 1) *
    ((digitsToNat f.intDigits : ℚ) + (digitsToNat f.fracDigits : ℚ) / 10 ^ f.fracDigits.length) *
    10 ^ f.exp

/-- Embedding of JS parseFloat over character lists; none models NaN. -/
def jsParseFloatList (cs : List Char) : Option ℚ :=
  (floatParse cs).map floatValue

/-- Character-level field extraction of the colon branch of
parseDurationToSeconds: collapse colon runs, prepend a zero field when the
string starts with a colon, split on colons and trim each field. -/
def durationFields (t : List Char) : List (List Char) :=
  let normalized := collapseColons t
  let timeStr := if normalized.head? = some ':' then '0' :: normalized else normalized
  (splitOnColon timeStr).map trimList

/-- Core of parseDurationToSeconds from timeFormatter.js over character
lists, mirroring the source: falsy check on the raw input, trim, the colon
branch (normalize, split, parse each field as a float with NaN becoming 0,
then dispatch on the field count), and the final parseFloat fallthrough on
the trimmed string for every other shape. -/
def parseDurationCore (cs : List Char) : ℚ :=
  if cs = [] then 0
  else
    let t := trimList cs
    if ':' ∈ t then
      match (durationFields t).map (fun p => (jsParseFloatList p).getD 0) with
      | [a, b, c] => a * 3600 + b * 60 + c
      | [a, b] => a * 60 + b
      | [a] => if a > 0 then a else (jsParseFloatList t).getD 0
      | _ => (jsParseFloatList t).getD 0
    else (jsParseFloatList t).getD 0

/-- parseDurationToSeconds on a string input (the typeof guard already
passed). -/
def parseDurationToSeconds (s : String) : ℚ :=
  parseDurationCore s.toList

/-- parseDurationToSeconds on an arbitrary JS value: none models every
non-string argument (null, undefined, numbers, objects), which the guard
at the top of the function maps to 0. -/
def parseDurationToSecondsJS : Option String → ℚ
  | none => 0
  | some s => parseDurationToSeconds s

/-- Result shape of formatTime: the hours, minutes, seconds and
totalSeconds fields of the returned object. -/
structure TimeBreakdown where
  hours : ℤ
  minutes : ℤ
  seconds : ℤ
  totalSeconds : ℤ
deriving DecidableEq, Repr

/-- JS Math.trunc, the rounding of the JS remainder operator. -/
def jsTrunc (q : ℚ) : ℤ :=
  if q < 0 then ⌈q⌉ else ⌊q⌋

/-- JS remainder x % y, defined as x - y * trunc (x / y). -/
def jsMod (x y : ℚ) : ℚ :=
  x - y * (jsTrunc (x / y) : ℚ)

/-- Embedding of formatTime from timeFormatter.js. The guard treats a
falsy (zero), NaN or negative argument as 0; over ℚ that condition is
seconds ≤ 0 (NaN never reaches a ℚ value). -/
def formatTime (seconds : ℚ) : TimeBreakdown :=
  let s := if seconds ≤ 0 then 0 else seconds
  ⟨⌊s / 3600⌋, ⌊jsMod s 3600 / 60⌋, ⌊jsMod s 60⌋, ⌊s⌋⟩

/-- timeEstimation.fixedOverheadSeconds from config.js. -/
def fixedOverheadSeconds : ℚ := 60

/-- timeEstimation.processingSpeedFactor from config.js. -/
def processingSpeedFactor : ℚ := 30

/-- Result of calculateEstimatedProcessingTime: the formatted estimate
plus whether the invalid-duration warning fired (the function logs that
the estimate is based on the fallback duration, not the real value). -/
structure EstimateOutcome where
  breakdown : TimeBreakdown
  usedFallbackDuration : Bool
deriving DecidableEq, Repr

/-- Embedding of calculateEstimatedProcessingTime. The guard treats a
falsy (zero), non-positive or NaN duration as invalid; over ℚ that
condition is durationSeconds ≤ 0. The estimate is
fixedOverhead + ceil (duration / speedFactor), then formatted. -/
def calculateEstimatedProcessingTime (durationSeconds : ℚ) : EstimateOutcome :=
  let invalid := durationSeconds ≤ 0
  let d := if invalid then 60 else durationSeconds
  ⟨formatTime (fixedOverheadSeconds + ((⌈d / processingSpeedFactor⌉ : ℤ) : ℚ)),
    decide invalid⟩

/-- The estimatedSeconds argument of calculateTimeDifference: either a
raw number of seconds or a time object. -/
inductive EstimateArg where
  | num (seconds : ℚ)
  | obj (t : TimeBreakdown)
deriving DecidableEq, Repr

/-- The estimated total extracted by calculateTimeDifference: the
totalSeconds field when the argument is an object, the number itself
otherwise. -/
def estimatedTotalOf : EstimateArg → ℚ
  | .num q => q
  | .obj t => (t.totalSeconds : ℚ)

/-- Result shape of calculateTimeDifference. -/
structure TimeDifference where
  timeObject : TimeBreakdown
  isFaster : Bool
  differenceText : String
  differenceSeconds : ℚ
deriving DecidableEq, Repr

/-- Embedding of calculateTimeDifference from
processingTimeEstimator.js. -/
def calculateTimeDifference (actualSeconds : ℚ) (estimatedSeconds : EstimateArg) :
    TimeDifference :=
  let estimatedTotal := estimatedTotalOf estimatedSeconds
  let differenceSeconds := |actualSeconds - estimatedTotal|
  let difference := formatTime differenceSeconds
  let isFaster : Bool := decide (actualSeconds ≤ estimatedTotal)
  let tail := (if isFaster then "faster" else "slower") ++ " than estimated"
  let differenceText :=
    if difference.hours > 0 then
      toString difference.hours ++ "h " ++ toString difference.minutes ++ "m " ++
        toString difference.seconds ++ "s " ++ tail
    else if difference.minutes > 0 then
      toString difference.minutes ++ "m " ++ toString difference.seconds ++ "s " ++ tail
    else
      toString difference.seconds ++ "s " ++ tail
  ⟨difference, isFaster, differenceText, differenceSeconds⟩

/-- Outcome of one external-process invocation: the exit code of the
close event and the accumulated stdout text. -/
structure ProcOutcome where
  exitCode : ℤ
  stdout : String
deriving DecidableEq, Repr

/-- Embedding of fallbackGetDuration: on exit code 0 with non-empty
trimmed output, parse it; a positive parse resolves, anything else
resolves the fixed 600-second default. -/
def fallbackGetDuration (fb : ProcOutcome) : ℚ :=
  if fb.exitCode = 0 ∧ trimList fb.stdout.toList ≠ [] then
    let seconds := parseDurationCore (trimList fb.stdout.toList)
    if seconds > 0 then seconds else 600
  else 600

/-- Embedding of getVideoDuration: the primary invocation is accepted on
exit code 0, non-empty trimmed stdout and a positive parse; every other
outcome runs fallbackGetDuration. The second component counts fallback
invocations. -/
def getVideoDuration (primary fallback : ProcOutcome) : ℚ × ℕ :=
  if primary.exitCode = 0 ∧ trimList primary.stdout.toList ≠ [] then
    let seconds := parseDurationCore (trimList primary.stdout.toList)
    if seconds > 0 then (seconds, 0) else (fallbackGetDuration fallback, 1)
  else (fallbackGetDuration fallback, 1)

/-- The format object of an ffprobe metadata result; duration is some q
exactly when the field is present and of JS type number. -/
structure FormatObj where
  duration : Option ℚ
deriving DecidableEq, Repr

/-- An ffprobe metadata object, whose format field may be absent. -/
structure MetadataObj where
  format : Option FormatObj
deriving DecidableEq, Repr

/-- Outcome of the ffprobe callback: an error, or metadata (itself
possibly null). -/
inductive ProbeOutcome where
  | failure (message : String)
  | success (metadata : Option MetadataObj)
deriving DecidableEq, Repr

/-- Matches a literal character sequence at the head of the input,
returning the remainder. -/
def stripLiteral : List Char → List Char → Option (List Char)
  | [], cs => some cs
  | _ :: _, [] => none
  | p :: ps, c :: cs => if c = p then stripLiteral ps cs else none

/-- One anchored attempt of the duration regex
(Duration: digits, colon, digits, colon, digits, dot, digits) at the
head of the input, returning the three capture groups with the seconds
group split at its decimal point. Greedy digit runs followed by a
non-digit delimiter coincide with the regex backtracking semantics. -/
def matchDurationAt (cs : List Char) :
    Option (List Char × List Char × List Char × List Char) :=
  match stripLiteral ("Duration: ".toList) cs with
  | none => none
  | some r0 =>
    let d1 := r0.takeWhile Char.isDigit
    let r1 := r0.dropWhile Char.isDigit
    if d1 = [] then none else
    match r1 with
    | ':' :: r2 =>
      let d2 := r2.takeWhile Char.isDigit
      let r3 := r2.dropWhile Char.isDigit
      if d2 = [] then none else
      match r3 with
      | ':' :: r4 =>
        let d3 := r4.takeWhile Char.isDigit
        let r5 := r4.dropWhile Char.isDigit
        if d3 = [] then none else
        match r5 with
        | '.' :: r6 =>
          let d4 := r6.takeWhile Char.isDigit
          if d4 = [] then none else some (d1, d2, d3, d4)
        | _ => none
      | _ => none
    | _ => none

/-- First match of the duration regex in the accumulated stream, scanning
positions left to right as String.prototype.match does. -/
def findDurationMatch : List Char → Option (List Char × List Char × List Char × List Char)
  | [] => none
  | c :: rest =>
    match matchDurationAt (c :: rest) with
    | some g => some g
    | none => findDurationMatch rest

/-- Embedding of fallbackDurationDetection: scan the accumulated stderr
of the raw transcode process for the duration pattern; on a match the
value is hours, minutes and fractional seconds combined, otherwise the
fixed 300-second default. -/
def fallbackDurationDetection (output : String) : ℚ :=
  match findDurationMatch output.toList with
  | some (d1, d2, d3, d4) =>
    (digitsToNat d1 : ℚ) * 3600 + (digitsToNat d2 : ℚ) * 60 +
      ((digitsToNat d3 : ℚ) + (digitsToNat d4 : ℚ) / 10 ^ d4.length)
  | none => 300

/-- Embedding of getAudioDuration: a probe failure runs the fallback
spawn (second component true); a probe success with a missing or
non-numeric duration field resolves the 300-second default immediately;
otherwise the metadata duration is resolved unchecked. -/
def getAudioDuration (probe : ProbeOutcome) (fallbackStderr : String) : ℚ × Bool :=
  match probe with
  | .failure _ => (fallbackDurationDetection fallbackStderr, true)
  | .success md =>
    match (md.bind MetadataObj.format).bind FormatObj.duration with
    | none => (300, false)
    | some d => (d, false)

/-- audioFormat from config.js. -/
def audioFormat : String := "wav"

/-- errorMessages.fileNotFound from config.js. -/
def fileNotFoundMsg : String := "Input file does not exist"

/-- errorMessages.ffmpegFailed from config.js. -/
def ffmpegFailedMsg : String := "FFmpeg conversion failed"

/-- errorMessages.wavNotCreated from config.js. -/
def wavNotCreatedMsg : String := "WAV file was not created during conversion"

/-- AppError from utils/errorHandler.js: message, HTTP status and an
optional cleanup path. -/
structure AppError where
  message : String
  statusCode : ℤ
  cleanup : Option String
deriving DecidableEq, Repr

/-- The two events of the spawned ffmpeg process that can fire for one
processAudio invocation: the process error event and the close event. -/
inductive FfmpegEvent where
  | procError (message : String)
  | close (code : ℤ)
deriving DecidableEq, Repr

/-- Mutable state of one processAudio invocation: the cleanupDone guard
flag, the list of deleteFile calls issued so far, and the promise
settlement (a promise keeps its first resolution). -/
structure ConvState where
  cleanupDone : Bool
  deleteCalls : List String
  settled : Option (Except AppError String)

/-- doCleanup from audioProcessor.js: delete the path unless the guard
flag is already set, then set it. -/
def doCleanup (pathToDelete : String) (s : ConvState) : ConvState :=
  if s.cleanupDone then s
  else ⟨true, s.deleteCalls ++ [pathToDelete], s.settled⟩

/-- Settling a JS promise: only the first resolve or reject counts. -/
def settlePromise (o : Except AppError String) (s : ConvState) : ConvState :=
  match s.settled with
  | some _ => s
  | none => ⟨s.cleanupDone, s.deleteCalls, some o⟩

/-- One event handler step of processAudio: the error handler cleans up
and rejects with the spawn error; the close handler cleans up and then
rejects on a non-zero code, rejects when the output artifact is missing,
and resolves with the output path otherwise. -/
def handleFfmpegEvent (filePath : String) (wavExists : Bool) (ffmpegError : String)
    (s : ConvState) : FfmpegEvent → ConvState
  | .procError msg =>
    settlePromise (Except.error ⟨ffmpegFailedMsg ++ ": " ++ msg, 500, some filePath⟩)
      (doCleanup filePath s)
  | .close code =>
    let s1 := doCleanup filePath s
    let wavFile := filePath ++ "." ++ audioFormat
    if code ≠ 0 then
      settlePromise
        (Except.error ⟨ffmpegFailedMsg ++ " with code " ++ toString code ++
          (if ffmpegError ≠ "" then ": " ++ ffmpegError else ""), 500, some wavFile⟩) s1
    else if wavExists then settlePromise (Except.ok wavFile) s1
    else settlePromise (Except.error ⟨wavNotCreatedMsg, 500, none⟩) s1

/-- A whole processAudio invocation, driven by the sequence of process
events that fire: a missing input file rejects up front with no spawn and
no cleanup; otherwise the handlers above run in event order starting from
the fresh state. -/
def processAudioRun (filePath : String) (fileExists wavExists : Bool)
    (ffmpegError : String) (events : List FfmpegEvent) : ConvState :=
  if fileExists then
    events.foldl (handleFfmpegEvent filePath wavExists ffmpegError) ⟨false, [], none⟩
  else ⟨false, [], some (Except.error ⟨fileNotFoundMsg, 500, some filePath⟩)⟩

/-- The observable actions of the close handler of transcribeAudio, in
program order. -/
inductive TranscribeAction where
  | unlinkWav (file : String)
  | logUnlinkFailure (message : String)
  | writeTranscript (file : String) (contents : String)
  | rejectWith (message : String)
  | resolveWith (text : String) (transcriptFile : String)
deriving DecidableEq, Repr

/-- JS String.prototype.trim on strings. -/
def jsTrim (s : String) : String :=
  (trimList s.toList).asString

/-- path.basename (posix): the component after the last slash. -/
def basename (p : String) : String :=
  ((p.toList.reverse.takeWhile (fun c => c ≠ '/')).reverse).asString

/-- The close handler of transcribeAudio as the sequence of actions it
performs: always attempt to unlink the WAV file first (logging, never
propagating, an unlink failure), then reject when the exit code is
non-zero, otherwise persist the trimmed transcript and resolve; a
persistence failure rejects with the write error. The unlinkError and
writeError parameters model the outcomes of the two fs operations, and
transcription is the accumulated stdout. -/
def transcriberOnClose (transcriptionsDir wavFile transcription : String)
    (unlinkError writeError : Option String) (code : ℤ) : List TranscribeAction :=
  let deleteActs :=
    match unlinkError with
    | none => [TranscribeAction.unlinkWav wavFile]
    | some msg => [TranscribeAction.unlinkWav wavFile, TranscribeAction.logUnlinkFailure msg]
  if code ≠ 0 then
    deleteActs ++ [TranscribeAction.rejectWith "❌ Transcription process failed."]
  else
    let transcriptFile := transcriptionsDir ++ "/" ++ basename wavFile ++ ".txt"
    match writeError with
    | some msg => deleteActs ++ [TranscribeAction.rejectWith msg]
    | none =>
      deleteActs ++ [TranscribeAction.writeTranscript transcriptFile (jsTrim transcription),
        TranscribeAction.resolveWith (jsTrim transcription) transcriptFile]

/-- Rendering of a plain decimal literal from its digit groups: the
integer digits, then a dot and the fraction digits when present. -/
def renderDec (ip fp : List Char) : List Char :=
  ip ++ (if fp = [] then [] else '.' :: fp)

/-- Value denoted by a plain decimal literal. -/
def decValue (ip fp : List Char) : ℚ :=
  (digitsToNat ip : ℚ) + (digitsToNat fp : ℚ) / 10 ^ fp.length

/-! ## Lemmas and claim theorems -/

/-- The empty digit group has value zero. -/
theorem digitsToNat_nil : digitsToNat [] = 0 := rfl

/-- A parseFloat lexeme with no sign and no exponent and a known digit
value evaluates to that natural number. -/
theorem jsParseFloat_getD_nat (cs ip : List Char) (n : ℕ)
    (h : floatParse cs = some ⟨false, ip, [], 0⟩)
    (hn : digitsToNat ip = n) :
    (jsParseFloatList cs).getD 0 = (n : ℚ) := by
  simp [jsParseFloatList, h, floatValue, hn, digitsToNat_nil]

/-- A parseFloat lexeme with no sign and no exponent, with fraction
digits, evaluates to intValue + fracValue / 10 ^ fracLength. -/
theorem jsParseFloat_getD_frac (cs ip fp : List Char) (n m k : ℕ)
    (h : floatParse cs = some ⟨false, ip, fp, 0⟩)
    (hn : digitsToNat ip = n) (hm : digitsToNat fp = m) (hk : fp.length = k) :
    (jsParseFloatList cs).getD 0 = (n : ℚ) + (m : ℚ) / 10 ^ k := by
  simp [jsParseFloatList, h, floatValue, hn, hm, hk]

/-- A negative-sign parseFloat lexeme with no exponent evaluates to the
negated digit value. -/
theorem jsParseFloat_getD_neg (cs ip : List Char) (n : ℕ)
    (h : floatParse cs = some ⟨true, ip, [], 0⟩)
    (hn : digitsToNat ip = n) :
    (jsParseFloatList cs).getD 0 = -(n : ℚ) := by
  simp [jsParseFloatList, h, floatValue, hn, digitsToNat_nil]

/-- An unparsable string is NaN for parseFloat, which the callers turn
into 0 via the isNaN guard. -/
theorem jsParseFloat_getD_none (cs : List Char)
    (h : floatParse cs = none) :
    (jsParseFloatList cs).getD 0 = 0 := by
  simp [jsParseFloatList, h]

/-- Driver for the three-field branch of parseDurationToSeconds. -/
theorem parseDurationCore_three (cs p1 p2 p3 : List Char) (v1 v2 v3 : ℚ)
    (hco : ':' ∈ trimList cs)
    (hp : durationFields (trimList cs) = [p1, p2, p3])
    (h1 : (jsParseFloatList p1).getD 0 = v1)
    (h2 : (jsParseFloatList p2).getD 0 = v2)
    (h3 : (jsParseFloatList p3).getD 0 = v3) :
    parseDurationCore cs = v1 * 3600 + v2 * 60 + v3 := by
  have hne : cs ≠ [] := by rintro rfl; simp [trimList] at hco
  simp [parseDurationCore, hne, hco, hp, h1, h2, h3]

/-- Driver for the two-field branch of parseDurationToSeconds. -/
theorem parseDurationCore_two (cs p1 p2 : List Char) (v1 v2 : ℚ)
    (hco : ':' ∈ trimList cs)
    (hp : durationFields (trimList cs) = [p1, p2])
    (h1 : (jsParseFloatList p1).getD 0 = v1)
    (h2 : (jsParseFloatList p2).getD 0 = v2) :
    parseDurationCore cs = v1 * 60 + v2 := by
  have hne : cs ≠ [] := by rintro rfl; simp [trimList] at hco
  simp [parseDurationCore, hne, hco, hp, h1, h2]

/-- Driver for the fallthrough inside the colon branch: with four or more
fields none of the field-count cases applies and the function falls back
to parseFloat of the whole trimmed string. -/
theorem parseDurationCore_fallthrough (cs p1 p2 p3 p4 : List Char) (rest : List (List Char))
    (v : ℚ)
    (hco : ':' ∈ trimList cs)
    (hp : durationFields (trimList cs) = p1 :: p2 :: p3 :: p4 :: rest)
    (hv : (jsParseFloatList (trimList cs)).getD 0 = v) :
    parseDurationCore cs = v := by
  have hne : cs ≠ [] := by rintro rfl; simp [trimList] at hco
  simp [parseDurationCore, hne, hco, hp, hv]

/-- Driver for the no-colon branch: the value is parseFloat of the
trimmed string, with NaN becoming 0. -/
theorem parseDurationCore_nocolon (cs : List Char) (v : ℚ)
    (hne : cs ≠ [])
    (hco : ':' ∉ trimList cs)
    (hv : (jsParseFloatList (trimList cs)).getD 0 = v) :
    parseDurationCore cs = v := by
  simp [parseDurationCore, hne, hco, hv]

/-- The JS remainder rounds toward zero, which on non-negative arguments
is the floor. -/
theorem jsTrunc_of_nonneg (q : ℚ) (h : 0 ≤ q) : jsTrunc q = ⌊q⌋ := by
  simp [jsTrunc, not_lt.mpr h]

/-- Math.floor of a non-negative rational divided by a natural number,
expressed with natural floor and natural division. -/
theorem int_floor_div_nat (q : ℚ) (hq : 0 ≤ q) (n : ℕ) :
    ⌊q / (n : ℚ)⌋ = ((⌊q⌋₊ / n : ℕ) : ℤ) := by
  rw [← Int.natCast_floor_eq_floor (div_nonneg hq (Nat.cast_nonneg n)),
    Nat.floor_div_nat]

/-- The JS remainder of a non-negative rational by a natural number is
non-negative and its natural floor is the remainder of the natural floor. -/
theorem jsMod_nat_spec (s : ℚ) (hs : 0 ≤ s) (m : ℕ) :
    0 ≤ jsMod s (m : ℚ) ∧ ⌊jsMod s (m : ℚ)⌋₊ = ⌊s⌋₊ % m := by
  have hdiv : jsTrunc (s / (m : ℚ)) = ((⌊s⌋₊ / m : ℕ) : ℤ) := by
    rw [jsTrunc_of_nonneg _ (div_nonneg hs (Nat.cast_nonneg m)), int_floor_div_nat s hs m]
  have hkm : ((m * (⌊s⌋₊ / m) : ℕ) : ℚ) ≤ s := by
    calc ((m * (⌊s⌋₊ / m) : ℕ) : ℚ) ≤ ((⌊s⌋₊ : ℕ) : ℚ) := by
          exact_mod_cast Nat.cast_le.mpr (Nat.mul_div_le _ m)
      _ ≤ s := Nat.floor_le hs
  have hjs : jsMod s (m : ℚ) = s - ((m * (⌊s⌋₊ / m) : ℕ) : ℚ) := by
    rw [jsMod, hdiv, Nat.cast_mul]
    norm_cast
  constructor
  · rw [hjs]
    linarith
  · rw [hjs, Nat.floor_sub_nat]
    exact Nat.sub_eq_of_eq_add (by rw [Nat.add_comm]; exact (Nat.div_add_mod _ _).symm)

/-- formatTime evaluated through the natural floor of its clamped input:
every field is integer division or remainder of that floor. -/
theorem formatTime_eq_of_floor (q : ℚ) (m : ℕ)
    (hm : ⌊if q ≤ 0 then (0 : ℚ) else q⌋₊ = m) :
    formatTime q =
      ⟨((m / 3600 : ℕ) : ℤ), ((m % 3600 / 60 : ℕ) : ℤ), ((m % 60 : ℕ) : ℤ), (m : ℤ)⟩ := by
  have hs0 : 0 ≤ (if q ≤ 0 then (0 : ℚ) else q) := by
    by_cases h : q ≤ 0
    · simp [h]
    · simp [h]
      exact le_of_lt (not_le.mp h)
  simp only [formatTime]
  set s := if q ≤ 0 then (0 : ℚ) else q with hs_def
  have h36 := jsMod_nat_spec s hs0 3600
  have h60 := jsMod_nat_spec s hs0 60
  have c36 : ((3600 : ℚ)) = (((3600 : ℕ)) : ℚ) := by norm_num
  have c60 : ((60 : ℚ)) = (((60 : ℕ)) : ℚ) := by norm_num
  have hA : ⌊s / 3600⌋ = ((m / 3600 : ℕ) : ℤ) := by
    rw [c36, int_floor_div_nat _ hs0, hm]
  have hB : ⌊jsMod s 3600 / 60⌋ = ((m % 3600 / 60 : ℕ) : ℤ) := by
    rw [c36, c60, int_floor_div_nat _ h36.1, h36.2, hm]
  have hC : ⌊jsMod s 60⌋ = ((m % 60 : ℕ) : ℤ) := by
    rw [c60, ← Int.natCast_floor_eq_floor h60.1, h60.2, hm]
  have hD : ⌊s⌋ = (m : ℤ) := by
    rw [← Int.natCast_floor_eq_floor hs0, hm]
  rw [hA, hB, hC, hD]

/-- formatTime on a natural-number input: fields are plain division and
remainder and totalSeconds is the input itself. -/
theorem formatTime_natCast (n : ℕ) :
    formatTime (n : ℚ) =
      ⟨((n / 3600 : ℕ) : ℤ), ((n % 3600 / 60 : ℕ) : ℤ), ((n % 60 : ℕ) : ℤ), (n : ℤ)⟩ := by
  apply formatTime_eq_of_floor
  by_cases h : (n : ℚ) ≤ 0
  · have hn : n = 0 := by exact_mod_cast le_antisymm h (Nat.cast_nonneg n)
    simp [h, hn]
  · simp [h]

/-- dropWhile is the identity when every element fails the predicate. -/
theorem dropWhile_eq_self_of_all (p : Char → Bool) (l : List Char)
    (h : ∀ c ∈ l, p c = false) : l.dropWhile p = l := by
  cases l with
  | nil => rfl
  | cons c t => simp [List.dropWhile_cons, h c (List.mem_cons_self c t)]

/-- trimList is the identity on whitespace-free lists. -/
theorem trimList_eq_self (l : List Char) (h : ∀ c ∈ l, isJsSpace c = false) :
    trimList l = l := by
  unfold trimList
  rw [dropWhile_eq_self_of_all _ _ h,
    dropWhile_eq_self_of_all _ _ (fun c hc => h c (List.mem_reverse.mp hc)),
    List.reverse_reverse]

/-- takeWhile over an all-satisfying prefix followed by a failing head. -/
theorem takeWhile_all_append (p : Char → Bool) (xs rest : List Char)
    (hxs : ∀ c ∈ xs, p c = true)
    (hrest : ∀ c, rest.head? = some c → p c = false) :
    (xs ++ rest).takeWhile p = xs := by
  induction xs with
  | nil =>
    cases rest with
    | nil => rfl
    | cons c t => simp [List.takeWhile_cons, hrest c rfl]
  | cons x xs ih =>
    have hx := hxs x (List.mem_cons_self x xs)
    simp only [List.cons_append, List.takeWhile_cons, hx, if_true]
    rw [ih (fun c hc => hxs c (List.mem_cons_of_mem x hc))]

/-- dropWhile over an all-satisfying prefix followed by a failing head. -/
theorem dropWhile_all_append (p : Char → Bool) (xs rest : List Char)
    (hxs : ∀ c ∈ xs, p c = true)
    (hrest : ∀ c, rest.head? = some c → p c = false) :
    (xs ++ rest).dropWhile p = rest := by
  induction xs with
  | nil =>
    cases rest with
    | nil => rfl
    | cons c t => simp [List.dropWhile_cons, hrest c rfl]
  | cons x xs ih =>
    have hx := hxs x (List.mem_cons_self x xs)
    simp only [List.cons_append, List.dropWhile_cons, hx, if_true]
    exact ih (fun c hc => hxs c (List.mem_cons_of_mem x hc))

/-- collapseColons steps over a non-colon head. -/
theorem collapseColons_cons_of_ne (x : Char) (l : List Char) (hx : x ≠ ':') :
    collapseColons (x :: l) = x :: collapseColons l := by
  cases l with
  | nil => rfl
  | cons c t => simp [collapseColons, hx]

/-- collapseColons steps over a colon whose successor is not a colon. -/
theorem collapseColons_colon_cons (ys : List Char) (hy : ys.head? ≠ some ':') :
    collapseColons (':' :: ys) = ':' :: collapseColons ys := by
  cases ys with
  | nil => rfl
  | cons c t =>
    have : c ≠ ':' := fun h => hy (by rw [h]; rfl)
    simp [collapseColons, this]

/-- collapseColons is the identity on colon-free lists. -/
theorem collapseColons_no_colon (l : List Char) (h : ':' ∉ l) : collapseColons l = l := by
  induction l with
  | nil => rfl
  | cons c t ih =>
    have hc : c ≠ ':' := fun he => h (he ▸ List.mem_cons_self c t)
    rw [collapseColons_cons_of_ne c t hc, ih (fun hm => h (List.mem_cons_of_mem c hm))]

/-- collapseColons across a single separating colon. -/
theorem collapseColons_append_colon (xs ys : List Char) (hx : ':' ∉ xs)
    (hy : ys.head? ≠ some ':') :
    collapseColons (xs ++ ':' :: ys) = xs ++ ':' :: collapseColons ys := by
  induction xs with
  | nil => simpa using collapseColons_colon_cons ys hy
  | cons x xs ih =>
    have hxne : x ≠ ':' := fun he => hx (he ▸ List.mem_cons_self x xs)
    rw [List.cons_append, collapseColons_cons_of_ne x _ hxne,
      ih (fun hm => hx (List.mem_cons_of_mem x hm)), List.cons_append]

/-- splitOnColon of a colon-free list is that single field. -/
theorem splitOnColon_no_colon (l : List Char) (h : ':' ∉ l) : splitOnColon l = [l] := by
  induction l with
  | nil => rfl
  | cons c t ih =>
    have hc : c ≠ ':' := fun he => h (he ▸ List.mem_cons_self c t)
    rw [splitOnColon, if_neg hc, ih (fun hm => h (List.mem_cons_of_mem c hm))]

/-- splitOnColon across the first separating colon. -/
theorem splitOnColon_append (xs ys : List Char) (hx : ':' ∉ xs) :
    splitOnColon (xs ++ ':' :: ys) = xs :: splitOnColon ys := by
  induction xs with
  | nil => simp [splitOnColon]
  | cons x xs ih =>
    have hxne : x ≠ ':' := fun he => hx (he ▸ List.mem_cons_self x xs)
    rw [List.cons_append, splitOnColon, if_neg hxne,
      ih (fun hm => hx (List.mem_cons_of_mem x hm))]

/-- A digit character is not any specific non-digit character. -/
theorem isDigit_ne (c : Char) (h : c.isDigit = true) (d : Char) (hd : d.isDigit = false) :
    c ≠ d := by
  intro he
  rw [he, hd] at h
  exact Bool.noConfusion h

/-- A digit character is not JS whitespace. -/
theorem isDigit_not_space (c : Char) (h : c.isDigit = true) : isJsSpace c = false := by
  by_contra hc
  have hc' : isJsSpace c = true := by
    cases hns : isJsSpace c with
    | false => exact absurd hns hc
    | true => rfl
  simp only [isJsSpace, Bool.or_eq_true, beq_iff_eq] at hc'
  rcases hc' with ((((h1 | h1) | h1) | h1) | h1) | h1 <;> subst h1 <;> exact Bool.noConfusion h

/-- The parseFloat mantissa lexer recovers the digit groups of a
canonical decimal literal exactly, consuming the whole input. -/
theorem mantissaDigits_renderDec (ip fp : List Char) (hip : ip ≠ [])
    (hipd : ∀ c ∈ ip, c.isDigit = true) (hfpd : ∀ c ∈ fp, c.isDigit = true) :
    mantissaDigits (renderDec ip fp) = some ((ip, fp), []) := by
  have hdot : ∀ c, (if fp = [] then ([] : List Char) else '.' :: fp).head? = some c →
      c.isDigit = false := by
    intro c hc
    by_cases hfp : fp = []
    · rw [hfp] at hc
      exact absurd hc (by simp)
    · rw [if_neg hfp] at hc
      injection hc with hc
      rw [← hc]
      decide
  unfold renderDec mantissaDigits
  rw [takeWhile_all_append _ _ _ hipd hdot, dropWhile_all_append _ _ _ hipd hdot]
  by_cases hfp : fp = []
  · subst hfp
    simp [hip]
  · rw [if_neg hfp]
    have h1 : (fp ++ ([] : List Char)).takeWhile Char.isDigit = fp :=
      takeWhile_all_append _ _ _ hfpd (by intro c hc; exact absurd hc (by simp))
    have h2 : (fp ++ ([] : List Char)).dropWhile Char.isDigit = [] :=
      dropWhile_all_append _ _ _ hfpd (by intro c hc; exact absurd hc (by simp))
    rw [List.append_nil] at h1 h2
    simp [h1, h2, hip]

/-- floatParse on a canonical decimal literal: no sign, the two digit
groups, exponent zero. -/
theorem floatParse_renderDec (ip fp : List Char) (hip : ip ≠ [])
    (hipd : ∀ c ∈ ip, c.isDigit = true) (hfpd : ∀ c ∈ fp, c.isDigit = true) :
    floatParse (renderDec ip fp) = some ⟨false, ip, fp, 0⟩ := by
  obtain ⟨c0, ip', rfl⟩ : ∃ c0 ip', ip = c0 :: ip' := by
    cases ip with
    | nil => exact absurd rfl hip
    | cons a b => exact ⟨a, b, rfl⟩
  have hc0 : c0.isDigit = true := hipd c0 (List.mem_cons_self c0 ip')
  have hsp : isJsSpace c0 = false := isDigit_not_space c0 hc0
  have hneg : ¬(c0 = '-') := isDigit_ne c0 hc0 '-' (by decide)
  have hplus : ¬(c0 = '+') := isDigit_ne c0 hc0 '+' (by decide)
  have hshape : renderDec (c0 :: ip') fp =
      c0 :: (ip' ++ if fp = [] then [] else '.' :: fp) := by
    unfold renderDec
    simp
  have hdw : (renderDec (c0 :: ip') fp).dropWhile isJsSpace = renderDec (c0 :: ip') fp := by
    rw [hshape]
    simp [List.dropWhile_cons, hsp]
  have hmant := mantissaDigits_renderDec (c0 :: ip') fp hip hipd hfpd
  unfold floatParse
  rw [hdw, hshape]
  simp only [hneg, hplus, if_false]
  rw [← hshape, hmant]
  rfl

/-- Every character of a rendered decimal literal is a digit or the dot. -/
theorem mem_renderDec (ip fp : List Char)
    (hipd : ∀ c ∈ ip, c.isDigit = true) (hfpd : ∀ c ∈ fp, c.isDigit = true) :
    ∀ c ∈ renderDec ip fp, c.isDigit = true ∨ c = '.' := by
  intro c hc
  unfold renderDec at hc
  rcases List.mem_append.mp hc with h | h
  · exact Or.inl (hipd c h)
  · by_cases hfp : fp = []
    · rw [hfp] at h
      exact absurd h (by simp)
    · rw [if_neg hfp] at h
      rcases List.mem_cons.mp h with h | h
      · exact Or.inr h
      · exact Or.inl (hfpd c h)

/-- A rendered decimal literal contains no colon. -/
theorem renderDec_no_colon (ip fp : List Char)
    (hipd : ∀ c ∈ ip, c.isDigit = true) (hfpd : ∀ c ∈ fp, c.isDigit = true) :
    ':' ∉ renderDec ip fp := by
  intro h
  rcases mem_renderDec ip fp hipd hfpd ':' h with h1 | h1
  · exact Bool.noConfusion h1
  · exact absurd h1 (by decide)

/-- A rendered decimal literal contains no whitespace. -/
theorem renderDec_no_space (ip fp : List Char)
    (hipd : ∀ c ∈ ip, c.isDigit = true) (hfpd : ∀ c ∈ fp, c.isDigit = true) :
    ∀ c ∈ renderDec ip fp, isJsSpace c = false := by
  intro c hc
  rcases mem_renderDec ip fp hipd hfpd c hc with h1 | h1
  · exact isDigit_not_space c h1
  · rw [h1]
    decide

/-- A rendered decimal literal with non-empty integer digits is
non-empty. -/
theorem renderDec_ne_nil (ip fp : List Char) (hip : ip ≠ []) :
    renderDec ip fp ≠ [] := by
  unfold renderDec
  cases ip with
  | nil => exact absurd rfl hip
  | cons a b => simp

/-- The head of a colon-free list is not a colon. -/
theorem head_ne_colon (l : List Char) (h : ':' ∉ l) : l.head? ≠ some ':' := by
  cases l with
  | nil => simp
  | cons c t =>
    intro hh
    injection hh with hh
    exact h (hh ▸ List.mem_cons_self c t)

/-- durationFields on a two-field colon join of clean fields. -/
theorem durationFields_pair (A B : List Char) (hA : A ≠ [])
    (hAcol : ':' ∉ A) (hBcol : ':' ∉ B)
    (hAsp : ∀ c ∈ A, isJsSpace c = false) (hBsp : ∀ c ∈ B, isJsSpace c = false) :
    durationFields (A ++ ':' :: B) = [A, B] := by
  have hcol : collapseColons (A ++ ':' :: B) = A ++ ':' :: B := by
    rw [collapseColons_append_colon A B hAcol (head_ne_colon B hBcol),
      collapseColons_no_colon B hBcol]
  have hhead : (A ++ ':' :: B).head? ≠ some ':' := by
    cases A with
    | nil => exact absurd rfl hA
    | cons a t =>
      intro hh
      injection hh with hh
      exact hAcol (hh ▸ List.mem_cons_self a t)
  unfold durationFields
  simp only [hcol]
  rw [if_neg hhead, splitOnColon_append A B hAcol, splitOnColon_no_colon B hBcol]
  simp [trimList_eq_self A hAsp, trimList_eq_self B hBsp]

/-- durationFields on a three-field colon join of clean fields. -/
theorem durationFields_triple (A B C : List Char) (hA : A ≠ []) (hB : B ≠ [])
    (hAcol : ':' ∉ A) (hBcol : ':' ∉ B) (hCcol : ':' ∉ C)
    (hAsp : ∀ c ∈ A, isJsSpace c = false) (hBsp : ∀ c ∈ B, isJsSpace c = false)
    (hCsp : ∀ c ∈ C, isJsSpace c = false) :
    durationFields (A ++ ':' :: (B ++ ':' :: C)) = [A, B, C] := by
  have hmidhead : (B ++ ':' :: C).head? ≠ some ':' := by
    cases B with
    | nil => exact absurd rfl hB
    | cons b t =>
      intro hh
      injection hh with hh
      exact hBcol (hh ▸ List.mem_cons_self b t)
  have hcol : collapseColons (A ++ ':' :: (B ++ ':' :: C)) = A ++ ':' :: (B ++ ':' :: C) := by
    rw [collapseColons_append_colon A (B ++ ':' :: C) hAcol hmidhead,
      collapseColons_append_colon B C hBcol (head_ne_colon C hCcol),
      collapseColons_no_colon C hCcol]
  have hhead : (A ++ ':' :: (B ++ ':' :: C)).head? ≠ some ':' := by
    cases A with
    | nil => exact absurd rfl hA
    | cons a t =>
      intro hh
      injection hh with hh
      exact hAcol (hh ▸ List.mem_cons_self a t)
  unfold durationFields
  simp only [hcol]
  rw [if_neg hhead, splitOnColon_append A _ hAcol, splitOnColon_append B C hBcol,
    splitOnColon_no_colon C hCcol]
  simp [trimList_eq_self A hAsp, trimList_eq_self B hBsp, trimList_eq_self C hCsp]

/-- The whole two-field join is whitespace-free and contains its colon. -/
theorem join2_clean (A B : List Char)
    (hAsp : ∀ c ∈ A, isJsSpace c = false) (hBsp : ∀ c ∈ B, isJsSpace c = false) :
    trimList (A ++ ':' :: B) = A ++ ':' :: B := by
  apply trimList_eq_self
  intro c hc
  rcases List.mem_append.mp hc with h | h
  · exact hAsp c h
  · rcases List.mem_cons.mp h with h | h
    · rw [h]
      decide
    · exact hBsp c h

/-- parseDurationToSeconds on a canonical two-field literal m:s is
m * 60 + s, with no range check on either field. -/
theorem parse_two_fields (mi mf si sf : List Char) (hmi : mi ≠ []) (hsi : si ≠ [])
    (hmid : ∀ c ∈ mi, c.isDigit = true) (hmfd : ∀ c ∈ mf, c.isDigit = true)
    (hsid : ∀ c ∈ si, c.isDigit = true) (hsfd : ∀ c ∈ sf, c.isDigit = true) :
    parseDurationCore (renderDec mi mf ++ ':' :: renderDec si sf)
      = decValue mi mf * 60 + decValue si sf := by
  have hAsp := renderDec_no_space mi mf hmid hmfd
  have hBsp := renderDec_no_space si sf hsid hsfd
  have htrim := join2_clean (renderDec mi mf) (renderDec si sf) hAsp hBsp
  refine parseDurationCore_two _ (renderDec mi mf) (renderDec si sf) _ _ ?_ ?_ ?_ ?_
  · rw [htrim]
    simp
  · rw [htrim]
    exact durationFields_pair _ _ (renderDec_ne_nil mi mf hmi)
      (renderDec_no_colon mi mf hmid hmfd) (renderDec_no_colon si sf hsid hsfd) hAsp hBsp
  · exact jsParseFloat_getD_frac _ mi mf _ _ _
      (floatParse_renderDec mi mf hmi hmid hmfd) rfl rfl rfl
  · exact jsParseFloat_getD_frac _ si sf _ _ _
      (floatParse_renderDec si sf hsi hsid hsfd) rfl rfl rfl

/-- parseDurationToSeconds on a canonical three-field literal h:m:s is
h * 3600 + m * 60 + s, with no range check on any field. -/
theorem parse_three_fields (hi hf mi mf si sf : List Char)
    (hhi : hi ≠ []) (hmi : mi ≠ []) (hsi : si ≠ [])
    (hhid : ∀ c ∈ hi, c.isDigit = true) (hhfd : ∀ c ∈ hf, c.isDigit = true)
    (hmid : ∀ c ∈ mi, c.isDigit = true) (hmfd : ∀ c ∈ mf, c.isDigit = true)
    (hsid : ∀ c ∈ si, c.isDigit = true) (hsfd : ∀ c ∈ sf, c.isDigit = true) :
    parseDurationCore (renderDec hi hf ++ ':' :: (renderDec mi mf ++ ':' :: renderDec si sf))
      = decValue hi hf * 3600 + decValue mi mf * 60 + decValue si sf := by
  have hAsp := renderDec_no_space hi hf hhid hhfd
  have hBsp := renderDec_no_space mi mf hmid hmfd
  have hCsp := renderDec_no_space si sf hsid hsfd
  have htrim : trimList (renderDec hi hf ++ ':' ::
      (renderDec mi mf ++ ':' :: renderDec si sf)) =
      renderDec hi hf ++ ':' :: (renderDec mi mf ++ ':' :: renderDec si sf) := by
    apply trimList_eq_self
    intro c hc
    rcases List.mem_append.mp hc with h | h
    · exact hAsp c h
    · rcases List.mem_cons.mp h with h | h
      · rw [h]
        decide
      · rcases List.mem_append.mp h with h | h
        · exact hBsp c h
        · rcases List.mem_cons.mp h with h | h
          · rw [h]
            decide
          · exact hCsp c h
  refine parseDurationCore_three _ (renderDec hi hf) (renderDec mi mf) (renderDec si sf)
    _ _ _ ?_ ?_ ?_ ?_ ?_
  · rw [htrim]
    simp
  · rw [htrim]
    exact durationFields_triple _ _ _ (renderDec_ne_nil hi hf hhi) (renderDec_ne_nil mi mf hmi)
      (renderDec_no_colon hi hf hhid hhfd) (renderDec_no_colon mi mf hmid hmfd)
      (renderDec_no_colon si sf hsid hsfd) hAsp hBsp hCsp
  · exact jsParseFloat_getD_frac _ hi hf _ _ _
      (floatParse_renderDec hi hf hhi hhid hhfd) rfl rfl rfl
  · exact jsParseFloat_getD_frac _ mi mf _ _ _
      (floatParse_renderDec mi mf hmi hmid hmfd) rfl rfl rfl
  · exact jsParseFloat_getD_frac _ si sf _ _ _
      (floatParse_renderDec si sf hsi hsid hsfd) rfl rfl rfl

/-- Characters survive trimming only if present in the input. -/
theorem mem_trimList (c : Char) (l : List Char) (h : c ∈ trimList l) : c ∈ l := by
  unfold trimList at h
  rw [List.mem_reverse] at h
  have h1 := (List.dropWhile_sublist _).subset h
  rw [List.mem_reverse] at h1
  exact (List.dropWhile_sublist _).subset h1

/-- Characters survive colon collapsing only if present in the input. -/
theorem mem_collapseColons (c : Char) (l : List Char) (h : c ∈ collapseColons l) : c ∈ l := by
  induction l with
  | nil => exact absurd h (by simp [collapseColons])
  | cons c1 t ih =>
    cases t with
    | nil => exact h
    | cons c2 t2 =>
      by_cases hcc : c1 = ':' ∧ c2 = ':'
      · rw [collapseColons, if_pos hcc] at h
        exact List.mem_cons_of_mem c1 (ih h)
      · rw [collapseColons, if_neg hcc] at h
        rcases List.mem_cons.mp h with h | h
        · exact h ▸ List.mem_cons_self c1 _
        · exact List.mem_cons_of_mem c1 (ih h)

/-- splitOnColon never returns an empty field list. -/
theorem splitOnColon_ne_nil (l : List Char) : splitOnColon l ≠ [] := by
  cases l with
  | nil => simp [splitOnColon]
  | cons c t =>
    by_cases hc : c = ':'
    · simp [splitOnColon, hc]
    · cases hs : splitOnColon t with
      | nil => simp [splitOnColon, hc, hs]
      | cons p ps => simp [splitOnColon, hc, hs]

/-- Characters of split fields come from the split input. -/
theorem mem_splitOnColon (l : List Char) (p : List Char) (c : Char)
    (hp : p ∈ splitOnColon l) (hc : c ∈ p) : c ∈ l := by
  induction l generalizing p with
  | nil =>
    simp [splitOnColon] at hp
    rw [hp] at hc
    exact absurd hc (by simp)
  | cons c0 t ih =>
    by_cases h0 : c0 = ':'
    · rw [splitOnColon, if_pos h0] at hp
      rcases List.mem_cons.mp hp with h | h
      · rw [h] at hc
        exact absurd hc (by simp)
      · exact List.mem_cons_of_mem c0 (ih p h hc)
    · rw [splitOnColon, if_neg h0] at hp
      cases hs : splitOnColon t with
      | nil => exact absurd hs (splitOnColon_ne_nil t)
      | cons q qs =>
        rw [hs] at hp
        rcases List.mem_cons.mp hp with h | h
        · rw [h] at hc
          rcases List.mem_cons.mp hc with h1 | h1
          · exact h1 ▸ List.mem_cons_self c0 t
          · exact List.mem_cons_of_mem c0 (ih q (hs ▸ List.mem_cons_self q qs) h1)
        · exact List.mem_cons_of_mem c0 (ih p (hs ▸ List.mem_cons_of_mem q h) hc)

/-- Characters of duration fields are the prepended zero or come from
the input. -/
theorem mem_durationFields (t p : List Char) (c : Char)
    (hp : p ∈ durationFields t) (hc : c ∈ p) : c = '0' ∨ c ∈ t := by
  unfold durationFields at hp
  rcases List.mem_map.mp hp with ⟨q, hq, rfl⟩
  have hcq : c ∈ q := mem_trimList c q hc
  by_cases hh : (collapseColons t).head? = some ':'
  · rw [if_pos hh] at hq
    have := mem_splitOnColon _ q c hq hcq
    rcases List.mem_cons.mp this with h | h
    · exact Or.inl h
    · exact Or.inr (mem_collapseColons c t h)
  · rw [if_neg hh] at hq
    exact Or.inr (mem_collapseColons c t (mem_splitOnColon _ q c hq hcq))

/-- floatParse reports a negative sign only when the input contains a
minus character. -/
theorem floatParse_neg_mem (cs : List Char) (f : FloatRep)
    (h : floatParse cs = some f) (hf : f.neg = true) : '-' ∈ cs := by
  unfold floatParse at h
  cases hcs1 : cs.dropWhile isJsSpace with
  | nil =>
    rw [hcs1] at h
    rcases Option.map_eq_some'.mp h with ⟨m, _, hm⟩
    rw [← hm] at hf
    exact Bool.noConfusion hf
  | cons c r =>
    rw [hcs1] at h
    by_cases hneg : c = '-'
    · have : c ∈ cs := (List.dropWhile_sublist _).subset (hcs1 ▸ List.mem_cons_self c r)
      exact hneg ▸ this
    · by_cases hplus : c = '+'
      · simp only [hneg, hplus, if_false, if_true] at h
        rcases Option.map_eq_some'.mp h with ⟨m, _, hm⟩
        rw [← hm] at hf
        exact Bool.noConfusion hf
      · simp only [hneg, hplus, if_false] at h
        rcases Option.map_eq_some'.mp h with ⟨m, _, hm⟩
        rw [← hm] at hf
        exact Bool.noConfusion hf

/-- The value parseFloat assigns to a minus-free string, defaulted at 0
for NaN, is non-negative. -/
theorem getD_nonneg_of_no_minus (p : List Char) (h : '-' ∉ p) :
    0 ≤ (jsParseFloatList p).getD 0 := by
  cases hfp : floatParse p with
  | none => simp [jsParseFloatList, hfp]
  | some f =>
    have hneg : f.neg = false := by
      cases hn : f.neg with
      | true => exact absurd (floatParse_neg_mem p f hfp hn) h
      | false => rfl
    simp only [jsParseFloatList, hfp, Option.map_some', Option.getD_some, floatValue, hneg,
      Bool.false_eq_true, if_false, one_mul]
    positivity

/-- parseDurationToSeconds is non-negative on every minus-free input:
every field value is non-negative and the combining weights are
positive. -/
theorem parseDurationCore_nonneg (cs : List Char) (h : '-' ∉ cs) :
    0 ≤ parseDurationCore cs := by
  by_cases hne : cs = []
  · subst hne
    simp [parseDurationCore]
  · have hminus_t : '-' ∉ trimList cs := fun hm => h (mem_trimList _ _ hm)
    have hfall : 0 ≤ (jsParseFloatList (trimList cs)).getD 0 :=
      getD_nonneg_of_no_minus _ hminus_t
    have hfield : ∀ p ∈ durationFields (trimList cs), 0 ≤ (jsParseFloatList p).getD 0 := by
      intro p hp
      apply getD_nonneg_of_no_minus
      intro hm
      rcases mem_durationFields _ p '-' hp hm with h0 | h0
      · exact absurd h0 (by decide)
      · exact hminus_t h0
    by_cases hco : ':' ∈ trimList cs
    · rcases hdf : durationFields (trimList cs) with _ | ⟨p1, _ | ⟨p2, _ | ⟨p3, _ | ⟨p4, rest⟩⟩⟩⟩
      · simp only [parseDurationCore, hne, if_neg hne, if_pos hco, hdf, List.map_nil]
        exact hfall
      · simp only [parseDurationCore, hne, if_neg hne, if_pos hco, hdf, List.map_cons,
          List.map_nil]
        have h1 := hfield p1 (hdf ▸ List.mem_cons_self p1 [])
        by_cases hpos : (jsParseFloatList p1).getD 0 > 0
        · rw [if_pos hpos]
          exact le_of_lt hpos
        · rw [if_neg hpos]
          exact hfall
      · simp only [parseDurationCore, hne, if_neg hne, if_pos hco, hdf, List.map_cons,
          List.map_nil]
        have h1 := hfield p1 (hdf ▸ List.mem_cons_self p1 [p2])
        have h2 := hfield p2 (hdf ▸ List.mem_cons_of_mem p1 (List.mem_cons_self p2 []))
        positivity
      · simp only [parseDurationCore, hne, if_neg hne, if_pos hco, hdf, List.map_cons,
          List.map_nil]
        have h1 := hfield p1 (hdf ▸ List.mem_cons_self p1 [p2, p3])
        have h2 := hfield p2 (hdf ▸ List.mem_cons_of_mem p1 (List.mem_cons_self p2 [p3]))
        have h3 := hfield p3 (hdf ▸ List.mem_cons_of_mem p1
          (List.mem_cons_of_mem p2 (List.mem_cons_self p3 [])))
        positivity
      · simp only [parseDurationCore, hne, if_neg hne, if_pos hco, hdf, List.map_cons]
        exact hfall
    · simp only [parseDurationCore, hne, if_neg hne, if_neg hco]
      exact hfall

/-- fallbackDurationDetection never returns a negative duration. -/
theorem fallbackDurationDetection_nonneg (out : String) :
    0 ≤ fallbackDurationDetection out := by
  unfold fallbackDurationDetection
  cases h : findDurationMatch out.toList with
  | none => norm_num
  | some g =>
    obtain ⟨d1, d2, d3, d4⟩ := g
    positivity

/-- Settling a promise never touches the cleanup guard. -/
theorem settlePromise_cleanupDone (o : Except AppError String) (s : ConvState) :
    (settlePromise o s).cleanupDone = s.cleanupDone := by
  cases hs : s.settled <;> simp [settlePromise, hs]

/-- Settling a promise never issues a deleteFile call. -/
theorem settlePromise_deleteCalls (o : Except AppError String) (s : ConvState) :
    (settlePromise o s).deleteCalls = s.deleteCalls := by
  cases hs : s.settled <;> simp [settlePromise, hs]

/-- Every handler branch is a settlement of the cleaned-up state. -/
theorem handleFfmpegEvent_eq_settle (fp : String) (wav : Bool) (err : String)
    (s : ConvState) (e : FfmpegEvent) :
    ∃ o, handleFfmpegEvent fp wav err s e = settlePromise o (doCleanup fp s) := by
  cases e with
  | procError msg => exact ⟨_, rfl⟩
  | close code =>
    by_cases h0 : code ≠ 0
    · refine ⟨Except.error ⟨ffmpegFailedMsg ++ " with code " ++ toString code ++
        (if err ≠ "" then ": " ++ err else ""), 500, some (fp ++ "." ++ audioFormat)⟩, ?_⟩
      simp only [handleFfmpegEvent, if_pos h0]
    · by_cases hw : wav = true
      · refine ⟨Except.ok (fp ++ "." ++ audioFormat), ?_⟩
        simp only [handleFfmpegEvent, if_neg h0, hw, if_true]
      · have hw' : wav = false := by
          cases wav
          · rfl
          · exact absurd rfl hw
        refine ⟨Except.error ⟨wavNotCreatedMsg, 500, none⟩, ?_⟩
        simp only [handleFfmpegEvent, if_neg h0, hw', Bool.false_eq_true, if_false]

/-- After any event the guard is set, and the deletion list gained the
input path exactly when the guard was not yet set. -/
theorem handleFfmpegEvent_fields (fp : String) (wav : Bool) (err : String)
    (s : ConvState) (e : FfmpegEvent) :
    (handleFfmpegEvent fp wav err s e).cleanupDone = true ∧
    (handleFfmpegEvent fp wav err s e).deleteCalls =
      (if s.cleanupDone then s.deleteCalls else s.deleteCalls ++ [fp]) := by
  obtain ⟨o, ho⟩ := handleFfmpegEvent_eq_settle fp wav err s e
  rw [ho, settlePromise_cleanupDone, settlePromise_deleteCalls]
  by_cases h : s.cleanupDone = true
  · simp [doCleanup, h]
  · have h' : s.cleanupDone = false := by
      cases hc : s.cleanupDone
      · rfl
      · exact absurd hc h
    simp [doCleanup, h']

/-- Once the guard is set, no further event changes the deletion list. -/
theorem foldl_events_deleteCalls (fp : String) (wav : Bool) (err : String)
    (es : List FfmpegEvent) (s : ConvState) (h : s.cleanupDone = true) :
    (es.foldl (handleFfmpegEvent fp wav err) s).deleteCalls = s.deleteCalls ∧
    (es.foldl (handleFfmpegEvent fp wav err) s).cleanupDone = true := by
  induction es generalizing s with
  | nil => exact ⟨rfl, h⟩
  | cons e es ih =>
    rw [List.foldl_cons]
    have hf := handleFfmpegEvent_fields fp wav err s e
    have := ih (handleFfmpegEvent fp wav err s e) hf.1
    refine ⟨?_, this.2⟩
    rw [this.1, hf.2, if_pos h]

/-- C1: in processAudio the raw input file is deleted exactly once per
invocation: for every non-empty sequence of spawn-error and close events,
in either order, the deleteFile calls are exactly one call on the input
path; the first event already performs it, and with no event no deletion
happens. -/
theorem c1_cleanup_once (filePath : String) (wavExists : Bool) (ffmpegError : String)
    (e : FfmpegEvent) (es : List FfmpegEvent) :
    (processAudioRun filePath true wavExists ffmpegError (e :: es)).deleteCalls = [filePath]
    ∧ (handleFfmpegEvent filePath wavExists ffmpegError ⟨false, [], none⟩ e).deleteCalls =
      [filePath]
    ∧ (processAudioRun filePath true wavExists ffmpegError []).deleteCalls = [] := by
  have hf := handleFfmpegEvent_fields filePath wavExists ffmpegError ⟨false, [], none⟩ e
  have h1 : (handleFfmpegEvent filePath wavExists ffmpegError ⟨false, [], none⟩ e).deleteCalls =
      [filePath] := by
    rw [hf.2]
    simp
  refine ⟨?_, h1, ?_⟩
  · have hrun : processAudioRun filePath true wavExists ffmpegError (e :: es) =
        (e :: es).foldl (handleFfmpegEvent filePath wavExists ffmpegError) ⟨false, [], none⟩ := by
      simp [processAudioRun]
    rw [hrun, List.foldl_cons]
    have := foldl_events_deleteCalls filePath wavExists ffmpegError es _ hf.1
    rw [this.1, h1]
  · simp [processAudioRun]

/-- C2: whenever the transcription process exits non-zero, the close
handler of transcribeAudio first attempts the best-effort deletion of
the WAV artifact (an unlink failure is only logged), then rejects with
the transcription-failure error; the trace is independent of the
transcript text accumulated on stdout and contains no write and no
resolution. -/
theorem c2_nonzero_exit_rejects (dir wav text : String)
    (unlinkError writeError : Option String) (code : ℤ) (h : code ≠ 0) :
    (transcriberOnClose dir wav text unlinkError writeError code).head? =
      some (TranscribeAction.unlinkWav wav)
    ∧ (transcriberOnClose dir wav text unlinkError writeError code).getLast? =
      some (TranscribeAction.rejectWith "❌ Transcription process failed.")
    ∧ (∀ text2, transcriberOnClose dir wav text2 unlinkError writeError code =
        transcriberOnClose dir wav text unlinkError writeError code)
    ∧ (∀ f c2, TranscribeAction.writeTranscript f c2 ∉
        transcriberOnClose dir wav text unlinkError writeError code)
    ∧ (∀ x y, TranscribeAction.resolveWith x y ∉
        transcriberOnClose dir wav text unlinkError writeError code) := by
  cases unlinkError with
  | none =>
    refine ⟨by simp [transcriberOnClose, h], by simp [transcriberOnClose, h], ?_, ?_, ?_⟩
    · intro text2
      simp [transcriberOnClose, h]
    · intro f c2
      simp [transcriberOnClose, h]
    · intro x y
      simp [transcriberOnClose, h]
  | some msg =>
    refine ⟨by simp [transcriberOnClose, h], by simp [transcriberOnClose, h], ?_, ?_, ?_⟩
    · intro text2
      simp [transcriberOnClose, h]
    · intro f c2
      simp [transcriberOnClose, h]
    · intro x y
      simp [transcriberOnClose, h]

/-- Witness for C2 at a concrete non-zero exit code. -/
theorem c2_nonzero_exit_rejects_witness :
    (transcriberOnClose "transcriptions" "up/a.wav" "full transcript" none none 1).getLast? =
      some (TranscribeAction.rejectWith "❌ Transcription process failed.") :=
  (c2_nonzero_exit_rejects "transcriptions" "up/a.wav" "full transcript" none none 1
    (by decide)).2.1

/-- The fallback video-duration attempt always resolves a positive
duration: a positive parse or the 600-second default. -/
theorem fallbackGetDuration_pos (x : ProcOutcome) : 0 < fallbackGetDuration x := by
  simp only [fallbackGetDuration]
  split_ifs with h1 h2
  · exact h2
  · norm_num
  · norm_num

/-- Accepted fallback outcome: exit 0, non-empty output, positive parse. -/
theorem fallbackGetDuration_ok (fb : ProcOutcome) (v : ℚ) (h0 : fb.exitCode = 0)
    (htr : trimList fb.stdout.toList ≠ [])
    (hv : parseDurationCore (trimList fb.stdout.toList) = v) (hpos : 0 < v) :
    fallbackGetDuration fb = v := by
  simp only [fallbackGetDuration]
  rw [if_pos ⟨h0, htr⟩, hv, if_pos hpos]

/-- Rejected fallback invocation resolves the 600-second default. -/
theorem fallbackGetDuration_fail (fb : ProcOutcome)
    (h : ¬(fb.exitCode = 0 ∧ trimList fb.stdout.toList ≠ [])) :
    fallbackGetDuration fb = 600 := by
  simp only [fallbackGetDuration]
  rw [if_neg h]

/-- Accepted primary outcome: no fallback invocation. -/
theorem getVideoDuration_primary_ok (p fb : ProcOutcome) (v : ℚ) (h0 : p.exitCode = 0)
    (htr : trimList p.stdout.toList ≠ [])
    (hv : parseDurationCore (trimList p.stdout.toList) = v) (hpos : 0 < v) :
    getVideoDuration p fb = (v, 0) := by
  simp only [getVideoDuration]
  rw [if_pos ⟨h0, htr⟩, hv, if_pos hpos]

/-- Failed primary invocation: exactly one fallback invocation. -/
theorem getVideoDuration_primary_fail (p fb : ProcOutcome)
    (h : ¬(p.exitCode = 0 ∧ trimList p.stdout.toList ≠ [])) :
    getVideoDuration p fb = (fallbackGetDuration fb, 1) := by
  simp only [getVideoDuration]
  rw [if_neg h]

/-- Unparsable primary success: treated like a failure, one fallback. -/
theorem getVideoDuration_primary_unparsable (p fb : ProcOutcome) (h0 : p.exitCode = 0)
    (htr : trimList p.stdout.toList ≠ [])
    (hng : ¬ 0 < parseDurationCore (trimList p.stdout.toList)) :
    getVideoDuration p fb = (fallbackGetDuration fb, 1) := by
  simp only [getVideoDuration]
  rw [if_pos ⟨h0, htr⟩, if_neg hng]

/-- C3: getVideoDuration always resolves a positive numeric duration and
never rejects; a rejected primary outcome (non-zero exit, empty trimmed
output, or a non-positive parse, the last exactly like a process failure)
triggers exactly one fallback invocation, and the chain ends at the fixed
600-second default; primary 10:30 resolves to 630 with no fallback,
fallback 5:45 resolves to 345, and two failures resolve to 600. -/
theorem c3_video_duration_chain (primary fb : ProcOutcome) (s : String) :
    0 < (getVideoDuration primary fb).1
    ∧ (getVideoDuration primary fb).2 ≤ 1
    ∧ ((getVideoDuration primary fb).2 = 0 ↔
        primary.exitCode = 0 ∧ trimList primary.stdout.toList ≠ [] ∧
          0 < parseDurationCore (trimList primary.stdout.toList))
    ∧ (parseDurationCore (trimList s.toList) ≤ 0 →
        getVideoDuration ⟨0, s⟩ fb = getVideoDuration ⟨1, s⟩ fb)
    ∧ getVideoDuration ⟨0, "10:30"⟩ ⟨1, ""⟩ = (630, 0)
    ∧ getVideoDuration ⟨1, ""⟩ ⟨0, "5:45"⟩ = (345, 1)
    ∧ getVideoDuration ⟨1, ""⟩ ⟨1, ""⟩ = (600, 1) := by
  have e630 : parseDurationCore (trimList (("10:30" : String).toList)) = 630 := by
    rw [show trimList (("10:30" : String).toList) = "10:30".toList from by decide,
      parseDurationCore_two _ ['1', '0'] ['3', '0'] 10 30 (by decide) (by decide)
        (jsParseFloat_getD_nat ['1', '0'] ['1', '0'] 10 (by decide) (by decide))
        (jsParseFloat_getD_nat ['3', '0'] ['3', '0'] 30 (by decide) (by decide))]
    norm_num
  have e345 : parseDurationCore (trimList (("5:45" : String).toList)) = 345 := by
    rw [show trimList (("5:45" : String).toList) = "5:45".toList from by decide,
      parseDurationCore_two _ ['5'] ['4', '5'] 5 45 (by decide) (by decide)
        (jsParseFloat_getD_nat ['5'] ['5'] 5 (by decide) (by decide))
        (jsParseFloat_getD_nat ['4', '5'] ['4', '5'] 45 (by decide) (by decide))]
    norm_num
  refine ⟨?_, ?_, ?_, ?_, ?_, ?_, ?_⟩
  · simp only [getVideoDuration]
    split_ifs with h1 h2
    · exact h2
    · exact fallbackGetDuration_pos fb
    · exact fallbackGetDuration_pos fb
  · simp only [getVideoDuration]
    split_ifs <;> simp
  · simp only [getVideoDuration]
    split_ifs with h1 h2
    · simp only [eq_self_iff_true, true_iff]
      exact ⟨h1.1, h1.2, h2⟩
    · simp only [iff_false_intro (by norm_num : (1 : ℕ) ≠ 0), false_iff]
      intro hcontra
      exact h2 hcontra.2.2
    · simp only [iff_false_intro (by norm_num : (1 : ℕ) ≠ 0), false_iff]
      intro hcontra
      exact h1 ⟨hcontra.1, hcontra.2.1⟩
  · intro hle
    by_cases htr : trimList s.toList = []
    · rw [getVideoDuration_primary_fail ⟨0, s⟩ fb (fun hc => hc.2 htr),
        getVideoDuration_primary_fail ⟨1, s⟩ fb (fun hc => absurd hc.1 one_ne_zero)]
    · rw [getVideoDuration_primary_unparsable ⟨0, s⟩ fb rfl htr (not_lt.mpr hle),
        getVideoDuration_primary_fail ⟨1, s⟩ fb (fun hc => absurd hc.1 one_ne_zero)]
  · rw [getVideoDuration_primary_ok ⟨0, "10:30"⟩ ⟨1, ""⟩ 630 rfl (by decide) e630 (by norm_num)]
  · rw [getVideoDuration_primary_fail ⟨1, ""⟩ ⟨0, "5:45"⟩ (fun hc => absurd hc.1 one_ne_zero),
      fallbackGetDuration_ok ⟨0, "5:45"⟩ 345 rfl (by decide) e345 (by norm_num)]
  · rw [getVideoDuration_primary_fail ⟨1, ""⟩ ⟨1, ""⟩ (fun hc => absurd hc.1 one_ne_zero),
      fallbackGetDuration_fail ⟨1, ""⟩ (fun hc => absurd hc.1 one_ne_zero)]

/-- Witness for C3: an unparsable success outcome falls back exactly as
a failed process does. -/
theorem c3_video_duration_chain_witness :
    getVideoDuration ⟨0, "junk"⟩ ⟨1, ""⟩ = getVideoDuration ⟨1, "junk"⟩ ⟨1, ""⟩ :=
  (c3_video_duration_chain ⟨0, "junk"⟩ ⟨1, ""⟩ "junk").2.2.2.1
    (le_of_eq (parseDurationCore_nocolon (trimList (("junk" : String).toList)) 0
      (by decide) (by decide)
      (jsParseFloat_getD_none (trimList (trimList (("junk" : String).toList))) (by decide))))

/-- C4: getAudioDuration has an asymmetric fallback chain: a successful
probe with a missing or non-numeric duration field resolves the fixed
300-second default immediately with no fallback spawn; a probe failure
spawns the raw transcode fallback and scans its stream, resolving the
computed duration on a pattern match (01:02:03.50 gives 3723.5) and 300
otherwise. -/
theorem c4_audio_duration_fallback (md : Option MetadataObj) (msg fb : String) :
    ((md.bind MetadataObj.format).bind FormatObj.duration = none →
      getAudioDuration (.success md) fb = (300, false))
    ∧ getAudioDuration (.failure msg) fb = (fallbackDurationDetection fb, true)
    ∧ (findDurationMatch fb.toList = none → getAudioDuration (.failure msg) fb = (300, true))
    ∧ getAudioDuration (.failure "probe failed") "  Duration: 01:02:03.50, bitrate: 128 kb/s"
      = (3723.5, true)
    ∧ getAudioDuration (.failure "probe failed") "no duration info here" = (300, true) := by
  refine ⟨?_, rfl, ?_, ?_, ?_⟩
  · intro h
    simp [getAudioDuration, h]
  · intro h
    simp only [getAudioDuration, fallbackDurationDetection]
    rw [h]
  · have hm : findDurationMatch
        (("  Duration: 01:02:03.50, bitrate: 128 kb/s" : String).toList) =
        some (['0', '1'], ['0', '2'], ['0', '3'], ['5', '0']) := by decide
    simp only [getAudioDuration, fallbackDurationDetection, hm]
    rw [show digitsToNat ['0', '1'] = 1 from by decide,
      show digitsToNat ['0', '2'] = 2 from by decide,
      show digitsToNat ['0', '3'] = 3 from by decide,
      show digitsToNat ['5', '0'] = 50 from by decide,
      show (['5', '0'] : List Char).length = 2 from by decide]
    norm_num
  · have hm : findDurationMatch (("no duration info here" : String).toList) = none := by decide
    simp only [getAudioDuration, fallbackDurationDetection]
    rw [hm]

/-- Witness for C4 at missing metadata. -/
theorem c4_audio_duration_fallback_witness :
    getAudioDuration (.success none) "x" = (300, false) :=
  (c4_audio_duration_fallback none "m" "x").1 rfl

/-- C5 counterexample: parseDurationToSeconds maps the minus-signed
input -5 to the negative value -5, refuting the claim that every input
string yields a non-negative duration. -/
theorem c5_counterexample :
    parseDurationToSeconds "-5" = -5 ∧ ¬(0 ≤ parseDurationToSeconds "-5") := by
  have h : parseDurationToSeconds "-5" = -((5 : ℕ) : ℚ) := by
    rw [parseDurationToSeconds,
      parseDurationCore_nocolon _ (-((5 : ℕ) : ℚ)) (by decide) (by decide)
        (jsParseFloat_getD_neg (trimList (("-5" : String).toList)) ['5'] 5
          (by decide) (by decide))]
  rw [h]
  norm_num

/-- C5 (amended): parseDurationToSeconds is non-NaN by construction and
non-negative for every input without a minus sign; getAudioDuration
resolves non-negatively on the probe-failure and invalid-metadata paths,
while the metadata-success path passes the probe duration field through
unchecked (so a negative probe value is returned as is). -/
theorem c5_duration_nonneg_amended (s msg fb : String) (d : ℚ) :
    ('-' ∉ s.toList → 0 ≤ parseDurationToSeconds s)
    ∧ 0 ≤ (getAudioDuration (.failure msg) fb).1
    ∧ getAudioDuration (.success (some ⟨some ⟨some d⟩⟩)) fb = (d, false)
    ∧ getAudioDuration (.success none) fb = (300, false) := by
  refine ⟨?_, ?_, rfl, rfl⟩
  · intro h
    exact parseDurationCore_nonneg _ h
  · simp only [getAudioDuration]
    exact fallbackDurationDetection_nonneg fb

/-- Witness for C5 (amended) on a minus-free input. -/
theorem c5_duration_nonneg_amended_witness :
    0 ≤ parseDurationToSeconds "4:90" :=
  (c5_duration_nonneg_amended "4:90" "m" "x" 7).1 (by decide)

/-- C6 counterexample: the four-field input 1:2:3:4 matches no field
rule, so the claim requires 0, yet the code falls through to parseFloat
of the whole trimmed string and returns 1 (confirmed by the repository
test suite). -/
theorem c6_counterexample :
    parseDurationToSeconds "1:2:3:4" = 1 ∧ (1 : ℚ) ≠ 0 := by
  constructor
  · rw [parseDurationToSeconds,
      parseDurationCore_fallthrough _ ['1'] ['2'] ['3'] ['4'] [] 1 (by decide) (by decide)
        (jsParseFloat_getD_nat (trimList (("1:2:3:4" : String).toList)) ['1'] 1
          (by decide) (by decide))]
  · norm_num

/-- C6 (amended): parseDurationToSeconds never throws (it is a total
function), returns 0 for non-string, empty and unparsable colon-free
inputs, and on colon strings normalizes separators, zero-fills a leading
separator and non-numeric fields, weighting two fields as m·60+s; an
input whose shape matches no field rule falls through to parseFloat of
the whole trimmed string instead of returning 0, so 1:2:3:4 parses
to 1. -/
theorem c6_parse_duration_amended :
    parseDurationToSecondsJS none = 0
    ∧ parseDurationToSeconds "" = 0
    ∧ (∀ s : String, ':' ∉ s.toList → floatParse (trimList s.toList) = none →
        parseDurationToSeconds s = 0)
    ∧ (∀ mi mf si sf : List Char, mi ≠ [] → si ≠ [] →
        (∀ c ∈ mi, c.isDigit = true) → (∀ c ∈ mf, c.isDigit = true) →
        (∀ c ∈ si, c.isDigit = true) → (∀ c ∈ sf, c.isDigit = true) →
        parseDurationCore (renderDec mi mf ++ ':' :: renderDec si sf)
          = decValue mi mf * 60 + decValue si sf)
    ∧ parseDurationToSeconds "1:23:45" = 5025
    ∧ parseDurationToSeconds "05:30" = 330
    ∧ parseDurationToSeconds ":30" = 30
    ∧ parseDurationToSeconds "1::30" = 90
    ∧ parseDurationToSeconds "1:2:invalid" = 3720
    ∧ parseDurationToSeconds "1:2:3:4" = 1 := by
  refine ⟨rfl, rfl, ?_, ?_, ?_, ?_, ?_, ?_, ?_, ?_⟩
  · intro s h1 h2
    by_cases hne : s.toList = []
    · rw [parseDurationToSeconds, hne]
      rfl
    · rw [parseDurationToSeconds,
        parseDurationCore_nocolon s.toList 0 hne (fun hm => h1 (mem_trimList _ _ hm))
          (jsParseFloat_getD_none _ h2)]
  · intro mi mf si sf hmi hsi hmid hmfd hsid hsfd
    exact parse_two_fields mi mf si sf hmi hsi hmid hmfd hsid hsfd
  · rw [parseDurationToSeconds,
      parseDurationCore_three _ ['1'] ['2', '3'] ['4', '5'] 1 23 45 (by decide) (by decide)
        (jsParseFloat_getD_nat ['1'] ['1'] 1 (by decide) (by decide))
        (jsParseFloat_getD_nat ['2', '3'] ['2', '3'] 23 (by decide) (by decide))
        (jsParseFloat_getD_nat ['4', '5'] ['4', '5'] 45 (by decide) (by decide))]
    norm_num
  · rw [parseDurationToSeconds,
      parseDurationCore_two _ ['0', '5'] ['3', '0'] 5 30 (by decide) (by decide)
        (jsParseFloat_getD_nat ['0', '5'] ['0', '5'] 5 (by decide) (by decide))
        (jsParseFloat_getD_nat ['3', '0'] ['3', '0'] 30 (by decide) (by decide))]
    norm_num
  · rw [parseDurationToSeconds,
      parseDurationCore_two _ ['0'] ['3', '0'] 0 30 (by decide) (by decide)
        (jsParseFloat_getD_nat ['0'] ['0'] 0 (by decide) (by decide))
        (jsParseFloat_getD_nat ['3', '0'] ['3', '0'] 30 (by decide) (by decide))]
    norm_num
  · rw [parseDurationToSeconds,
      parseDurationCore_two _ ['1'] ['3', '0'] 1 30 (by decide) (by decide)
        (jsParseFloat_getD_nat ['1'] ['1'] 1 (by decide) (by decide))
        (jsParseFloat_getD_nat ['3', '0'] ['3', '0'] 30 (by decide) (by decide))]
    norm_num
  · rw [parseDurationToSeconds,
      parseDurationCore_three _ ['1'] ['2'] "invalid".toList 1 2 0 (by decide) (by decide)
        (jsParseFloat_getD_nat ['1'] ['1'] 1 (by decide) (by decide))
        (jsParseFloat_getD_nat ['2'] ['2'] 2 (by decide) (by decide))
        (jsParseFloat_getD_none ("invalid".toList) (by decide))]
    norm_num
  · rw [parseDurationToSeconds,
      parseDurationCore_fallthrough _ ['1'] ['2'] ['3'] ['4'] [] 1 (by decide) (by decide)
        (jsParseFloat_getD_nat (trimList (("1:2:3:4" : String).toList)) ['1'] 1
          (by decide) (by decide))]

/-- Witness for C6 (amended): the universal clauses at concrete inputs. -/
theorem c6_parse_duration_amended_witness :
    parseDurationToSeconds "xyz" = 0
    ∧ parseDurationCore (renderDec ['4'] [] ++ ':' :: renderDec ['9', '0'] [])
      = decValue ['4'] [] * 60 + decValue ['9', '0'] [] :=
  ⟨c6_parse_duration_amended.2.2.1 "xyz" (by decide) (by decide),
    c6_parse_duration_amended.2.2.2.1 ['4'] [] ['9', '0'] [] (by decide) (by decide)
      (by decide) (by decide) (by decide) (by decide)⟩

/-- formatTime keeps a non-negative integral input intact in
totalSeconds. -/
theorem formatTime_totalSeconds_intCast (n : ℤ) (hn : 0 ≤ n) :
    (formatTime (n : ℚ)).totalSeconds = n := by
  by_cases h0 : (n : ℚ) ≤ 0
  · have hz : n = 0 := le_antisymm (by exact_mod_cast h0) hn
    subst hz
    simp [formatTime]
  · simp only [formatTime, if_neg h0]
    exact Int.floor_intCast n

/-- C7: calculateEstimatedProcessingTime substitutes the 60-second
fallback duration for a falsy, non-positive or NaN input and records
that the estimate is fallback-based; for a valid duration the estimate
is the formatted fixedOverhead + ceil (duration / speedFactor) with the
default configuration 60 and 30, so input 120 gives 64 total seconds and
input 0 gives 62. -/
theorem c7_estimate (d : ℚ) :
    (0 < d → (calculateEstimatedProcessingTime d).breakdown.totalSeconds = 60 + ⌈d / 30⌉
      ∧ (calculateEstimatedProcessingTime d).usedFallbackDuration = false)
    ∧ (d ≤ 0 → calculateEstimatedProcessingTime d = ⟨formatTime 62, true⟩)
    ∧ (calculateEstimatedProcessingTime 120).breakdown.totalSeconds = 64
    ∧ (calculateEstimatedProcessingTime 0).breakdown.totalSeconds = 62
    ∧ (calculateEstimatedProcessingTime 0).usedFallbackDuration = true := by
  have hvalid : ∀ x : ℚ, 0 < x →
      (calculateEstimatedProcessingTime x).breakdown.totalSeconds = 60 + ⌈x / 30⌉
      ∧ (calculateEstimatedProcessingTime x).usedFallbackDuration = false := by
    intro x hx
    have hnle : ¬(x ≤ 0) := not_le.mpr hx
    have harg : fixedOverheadSeconds + ((⌈x / processingSpeedFactor⌉ : ℤ) : ℚ) =
        (((60 + ⌈x / 30⌉ : ℤ)) : ℚ) := by
      simp only [fixedOverheadSeconds, processingSpeedFactor]
      push_cast
      ring
    have hc : 0 < ⌈x / 30⌉ := Int.ceil_pos.mpr (by positivity)
    constructor
    · simp only [calculateEstimatedProcessingTime, if_neg hnle]
      rw [harg, formatTime_totalSeconds_intCast _ (by omega)]
    · simp only [calculateEstimatedProcessingTime]
      exact decide_eq_false hnle
  have hfallback : ∀ x : ℚ, x ≤ 0 →
      calculateEstimatedProcessingTime x = ⟨formatTime 62, true⟩ := by
    intro x hx
    have harg : fixedOverheadSeconds + ((⌈(60 : ℚ) / processingSpeedFactor⌉ : ℤ) : ℚ) =
        (62 : ℚ) := by
      simp only [fixedOverheadSeconds, processingSpeedFactor]
      rw [show ((60 : ℚ)) / 30 = ((2 : ℤ) : ℚ) by norm_num, Int.ceil_intCast]
      norm_num
    simp only [calculateEstimatedProcessingTime, if_pos hx]
    rw [harg]
    simp [decide_eq_true hx]
  refine ⟨hvalid d, hfallback d, ?_, ?_, ?_⟩
  · rw [(hvalid 120 (by norm_num)).1,
      show ((120 : ℚ)) / 30 = ((4 : ℤ) : ℚ) by norm_num, Int.ceil_intCast]
    norm_num
  · rw [hfallback 0 le_rfl]
    rw [show ((62 : ℚ)) = (((62 : ℕ)) : ℚ) by norm_num, formatTime_natCast]
    decide
  · rw [hfallback 0 le_rfl]

/-- Witness for C7: the valid-duration clause at input 120. -/
theorem c7_estimate_witness :
    (calculateEstimatedProcessingTime 120).breakdown.totalSeconds = 60 + ⌈(120 : ℚ) / 30⌉ :=
  ((c7_estimate 120).1 (by norm_num)).1

/-- C8: calculateTimeDifference accepts a raw-seconds or a breakdown
estimate (using its totalSeconds), always returns the absolute difference
and classifies isFaster as actual ≤ estimate, so a tie counts as faster;
(100, 120) gives isFaster, difference 20 and the rendered text in the
coarsest non-zero unit. -/
theorem c8_time_difference (actual : ℚ) (est : EstimateArg) (t : TimeBreakdown) :
    (calculateTimeDifference actual est).differenceSeconds = |actual - estimatedTotalOf est|
    ∧ ((calculateTimeDifference actual est).isFaster = true ↔ actual ≤ estimatedTotalOf est)
    ∧ calculateTimeDifference actual (.obj t) =
      calculateTimeDifference actual (.num (t.totalSeconds : ℚ))
    ∧ (calculateTimeDifference 100 (.num 120)).isFaster = true
    ∧ (calculateTimeDifference 100 (.num 120)).differenceSeconds = 20
    ∧ (calculateTimeDifference 100 (.num 120)).differenceText = "20s faster than estimated"
    ∧ (calculateTimeDifference 120 (.num 120)).isFaster = true := by
  have habs : |(100 : ℚ) - 120| = ((20 : ℕ) : ℚ) := by norm_num
  have hf : decide ((100 : ℚ) ≤ 120) = true := decide_eq_true (by norm_num)
  refine ⟨rfl, ?_, rfl, ?_, ?_, ?_, ?_⟩
  · simp [calculateTimeDifference, decide_eq_true_eq]
  · simp only [calculateTimeDifference, estimatedTotalOf]
    exact hf
  · simp only [calculateTimeDifference, estimatedTotalOf]
    norm_num
  · simp only [calculateTimeDifference, estimatedTotalOf]
    rw [habs, formatTime_natCast]
    simp only [hf]
    decide
  · simp only [calculateTimeDifference, estimatedTotalOf]
    exact decide_eq_true (by norm_num)

/-- C9: formatting an already-integral value is a fixed point of
formatTime (totalSeconds returns the integer unchanged), and re-applying
formatTime to the totalSeconds of any formatTime result, in particular of
a parsed duration, reproduces the same TimeBreakdown. -/
theorem c9_format_idempotent :
    (∀ n : ℕ, (formatTime (n : ℚ)).totalSeconds = (n : ℤ))
    ∧ (∀ q : ℚ, formatTime (((formatTime q).totalSeconds : ℤ) : ℚ) = formatTime q)
    ∧ (∀ s : String,
        formatTime (((formatTime (parseDurationToSeconds s)).totalSeconds : ℤ) : ℚ) =
          formatTime (parseDurationToSeconds s)) := by
  have hpart2 : ∀ q : ℚ, formatTime (((formatTime q).totalSeconds : ℤ) : ℚ) = formatTime q := by
    intro q
    rw [formatTime_eq_of_floor q _ rfl]
    simp [Int.cast_natCast, formatTime_natCast]
  refine ⟨?_, hpart2, ?_⟩
  · intro n
    rw [formatTime_natCast]
  · intro s
    exact hpart2 (parseDurationToSeconds s)

/-- C10: parseDurationToSeconds performs no range validation: the
two-field literal m:s is weighted m·60+s for every pair of decimal
numerals, even with s at 60 or more or fractional, and a three-field
literal h:m:s is weighted h·3600+m·60+s likewise; concretely 4:90
parses to 330 exactly like 05:30, and 0:30.5 parses to 30.5. -/
theorem c10_parse_no_range_validation :
    (∀ mi mf si sf : List Char, mi ≠ [] → si ≠ [] →
        (∀ c ∈ mi, c.isDigit = true) → (∀ c ∈ mf, c.isDigit = true) →
        (∀ c ∈ si, c.isDigit = true) → (∀ c ∈ sf, c.isDigit = true) →
        parseDurationCore (renderDec mi mf ++ ':' :: renderDec si sf)
          = decValue mi mf * 60 + decValue si sf)
    ∧ (∀ hi hf mi mf si sf : List Char, hi ≠ [] → mi ≠ [] → si ≠ [] →
        (∀ c ∈ hi, c.isDigit = true) → (∀ c ∈ hf, c.isDigit = true) →
        (∀ c ∈ mi, c.isDigit = true) → (∀ c ∈ mf, c.isDigit = true) →
        (∀ c ∈ si, c.isDigit = true) → (∀ c ∈ sf, c.isDigit = true) →
        parseDurationCore
          (renderDec hi hf ++ ':' :: (renderDec mi mf ++ ':' :: renderDec si sf))
          = decValue hi hf * 3600 + decValue mi mf * 60 + decValue si sf)
    ∧ parseDurationToSeconds "4:90" = 330
    ∧ parseDurationToSeconds "05:30" = 330
    ∧ parseDurationToSeconds "4:90" = parseDurationToSeconds "05:30"
    ∧ parseDurationToSeconds "0:30.5" = 30.5 := by
  have e490 : parseDurationToSeconds "4:90" = 330 := by
    rw [parseDurationToSeconds,
      parseDurationCore_two _ ['4'] ['9', '0'] 4 90 (by decide) (by decide)
        (jsParseFloat_getD_nat ['4'] ['4'] 4 (by decide) (by decide))
        (jsParseFloat_getD_nat ['9', '0'] ['9', '0'] 90 (by decide) (by decide))]
    norm_num
  have e0530 : parseDurationToSeconds "05:30" = 330 := by
    rw [parseDurationToSeconds,
      parseDurationCore_two _ ['0', '5'] ['3', '0'] 5 30 (by decide) (by decide)
        (jsParseFloat_getD_nat ['0', '5'] ['0', '5'] 5 (by decide) (by decide))
        (jsParseFloat_getD_nat ['3', '0'] ['3', '0'] 30 (by decide) (by decide))]
    norm_num
  refine ⟨?_, ?_, e490, e0530, by rw [e490, e0530], ?_⟩
  · intro mi mf si sf hmi hsi hmid hmfd hsid hsfd
    exact parse_two_fields mi mf si sf hmi hsi hmid hmfd hsid hsfd
  · intro hi hf mi mf si sf hhi hmi hsi hhid hhfd hmid hmfd hsid hsfd
    exact parse_three_fields hi hf mi mf si sf hhi hmi hsi hhid hhfd hmid hmfd hsid hsfd
  · rw [parseDurationToSeconds,
      parseDurationCore_two _ ['0'] ['3', '0', '.', '5'] 0
        (((30 : ℕ) : ℚ) + ((5 : ℕ) : ℚ) / 10 ^ (1 : ℕ)) (by decide) (by decide)
        (jsParseFloat_getD_nat ['0'] ['0'] 0 (by decide) (by decide))
        (jsParseFloat_getD_frac ['3', '0', '.', '5'] ['3', '0'] ['5'] 30 5 1
          (by decide) (by decide) (by decide) (by decide))]
    norm_num

/-- Witness for C10: the universal weighting rules at out-of-range
concrete fields. -/
theorem c10_parse_no_range_validation_witness :
    parseDurationCore (renderDec ['7'] [] ++ ':' :: renderDec ['9', '0'] [])
      = decValue ['7'] [] * 60 + decValue ['9', '0'] []
    ∧ parseDurationCore
        (renderDec ['1'] [] ++ ':' :: (renderDec ['7', '0'] [] ++ ':' :: renderDec ['9', '9'] []))
      = decValue ['1'] [] * 3600 + decValue ['7', '0'] [] * 60 + decValue ['9', '9'] [] :=
  ⟨c10_parse_no_range_validation.1 ['7'] [] ['9', '0'] [] (by decide) (by decide)
      (by decide) (by decide) (by decide) (by decide),
    c10_parse_no_range_validation.2.1 ['1'] [] ['7', '0'] [] ['9', '9'] []
      (by decide) (by decide) (by decide) (by decide) (by decide) (by decide) (by decide)
      (by decide) (by decide)⟩
